import Mathlib

/-!
Verification of the delta-discovery subscription engine specification against the
repository's sources.

Part 1 embeds `CdsApiImpl::onConfigUpdate` (the delta overload,
`common/upstream/cds_api_impl.cc` in the sources): per-resource try/catch with
duplicate-name detection, error accumulation, removal processing, version
bookkeeping, and a final aggregated exception (which the subscription layer turns
into a NACK on the next request).
-/

/-- A decoded CDS cluster resource as seen by `CdsApiImpl::onConfigUpdate`.
`config` is the opaque cluster configuration payload and `valid` records whether
the cluster manager accepts it: `valid = false` models
`ClusterManagerImpl::addOrUpdateCluster` throwing `EnvoyException` for this
resource (the cluster manager itself is an external collaborator, outside the
sources). -/
structure Cluster where
  name : String
  config : Nat
  valid : Bool
deriving DecidableEq, Repr

/-- The cluster manager's live cluster set, as an association list from cluster
name to its currently applied configuration. -/
abbrev ClusterMap := List (String × Nat)

/-- Lookup of a cluster by name. -/
def lookupCluster : ClusterMap → String → Option Nat
  | [], _ => none
  | (k, v) :: rest, n => if k = n then some v else lookupCluster rest n

/-- Insert or overwrite the configuration stored under a name. -/
def setCluster : ClusterMap → String → Nat → ClusterMap
  | [], n, cfg => [(n, cfg)]
  | (k, v) :: rest, n, cfg =>
    if k = n then (n, cfg) :: rest else (k, v) :: setCluster rest n cfg

/-- The exception message the modelled cluster manager throws for an invalid
cluster. -/
def clusterInvalidWhat (c : Cluster) : String := "cluster " ++ c.name ++ " invalid"

/-- `ClusterManager::addOrUpdateCluster`, modelled as an external collaborator
(its implementation is not part of the sources): it throws on an invalid
cluster, returns `false` (skipped) when the stored configuration is unchanged,
and otherwise applies the configuration and returns `true`. -/
def addOrUpdateCluster (cm : ClusterMap) (c : Cluster) : Except String (ClusterMap × Bool) :=
  if c.valid = false then
    Except.error (clusterInvalidWhat c)
  else
    match lookupCluster cm c.name with
    | some cfg =>
      if cfg = c.config then Except.ok (cm, false)
      else Except.ok (setCluster cm c.name c.config, true)
    | none => Except.ok (setCluster cm c.name c.config, true)

/-- `ClusterManager::removeCluster`: removes the named cluster, reporting
whether anything was removed. -/
def removeCluster (cm : ClusterMap) (n : String) : ClusterMap × Bool :=
  (cm.filter (fun p => !(p.1 == n)), cm.any (fun p => p.1 == n))

/-- Intermediate state of the resource loop in `CdsApiImpl::onConfigUpdate`:
the cluster manager's map, the `cluster_names` duplicate-detection set, the
accumulated `exception_msgs`, and the `any_applied` flag. -/
structure CdsLoopState where
  cm : ClusterMap
  clusterNames : List String
  exceptionMsgs : List String
  anyApplied : Bool
deriving DecidableEq, Repr

/-- The message recorded for a duplicate cluster name
(`"{name}: duplicate cluster {name} found"`). -/
def cdsDuplicateMsg (c : Cluster) : String :=
  c.name ++ ": " ++ ("duplicate cluster " ++ c.name ++ " found")

/-- The message recorded for a cluster the cluster manager rejects. -/
def cdsInvalidMsg (c : Cluster) : String :=
  c.name ++ ": " ++ clusterInvalidWhat c

/-- One iteration of the `added_resources` loop of `CdsApiImpl::onConfigUpdate`:
the whole body runs in a try block; a duplicate name or a cluster-manager
exception is caught and appended to `exception_msgs`, and the loop continues
with the next resource. Note that the name is inserted into `cluster_names`
before the cluster manager is consulted, exactly as in the source. -/
def processAddedResource (st : CdsLoopState) (c : Cluster) : CdsLoopState :=
  if st.clusterNames.contains c.name then
    { st with exceptionMsgs := st.exceptionMsgs ++ [cdsDuplicateMsg c] }
  else
    match addOrUpdateCluster st.cm c with
    | Except.error e =>
      { st with clusterNames := c.name :: st.clusterNames,
                exceptionMsgs := st.exceptionMsgs ++ [c.name ++ ": " ++ e] }
    | Except.ok (cm2, applied) =>
      { st with cm := cm2, clusterNames := c.name :: st.clusterNames,
                anyApplied := st.anyApplied || applied }

/-- One iteration of the `removed_resources` loop. -/
def processRemovedResource (p : ClusterMap × Bool) (n : String) : ClusterMap × Bool :=
  let q := removeCluster p.1 n
  (q.1, p.2 || q.2)

/-- The state owned by `CdsApiImpl` and the cluster manager that
`onConfigUpdate` mutates: the live cluster set and `system_version_info_`. -/
structure CdsState where
  cm : ClusterMap
  systemVersionInfo : String
deriving DecidableEq, Repr

/-- `CdsApiImpl::onConfigUpdate` (delta overload): processes every added
resource (accumulating per-resource exceptions), then every removal, advances
`system_version_info_` only when `any_applied`, and finally throws an
aggregated `EnvoyException` when any per-resource exception was recorded. The
returned `Except.error` models that throw, which the subscription layer turns
into a NACK on the next outbound request for the type. Mutations performed
before the throw persist. -/
def CdsApiImpl.onConfigUpdate (s : CdsState) (addedResources : List Cluster)
    (removedResources : List String) (systemVersionInfo : String) :
    CdsState × Except String Unit :=
  let st := addedResources.foldl processAddedResource ⟨s.cm, [], [], false⟩
  let q := removedResources.foldl processRemovedResource (st.cm, st.anyApplied)
  let v := if q.2 then systemVersionInfo else s.systemVersionInfo
  (⟨q.1, v⟩,
   if st.exceptionMsgs.isEmpty then Except.ok ()
   else Except.error ("Error adding/updating cluster(s) " ++
     String.intercalate ", " st.exceptionMsgs))

example :
    CdsApiImpl.onConfigUpdate ⟨[], "0"⟩ [⟨"a", 1, true⟩, ⟨"a", 2, true⟩] [] "1" =
      (⟨[("a", 1)], "1"⟩,
       Except.error ("Error adding/updating cluster(s) " ++ cdsDuplicateMsg ⟨"a", 2, true⟩)) := rfl

example :
    CdsApiImpl.onConfigUpdate ⟨[], "0"⟩ [⟨"a", 1, true⟩, ⟨"b", 2, false⟩] [] "1" =
      (⟨[("a", 1)], "1"⟩,
       Except.error ("Error adding/updating cluster(s) " ++ cdsInvalidMsg ⟨"b", 2, false⟩)) := rfl

deriving instance DecidableEq for Except

theorem lookupCluster_setCluster_self (cm : ClusterMap) (n : String) (cfg : Nat) :
    lookupCluster (setCluster cm n cfg) n = some cfg := by
  induction cm with
  | nil => simp [setCluster, lookupCluster]
  | cons p rest ih =>
    obtain ⟨k, v⟩ := p
    by_cases h : k = n
    · simp [setCluster, h, lookupCluster]
    · simp [setCluster, h, lookupCluster, ih]

theorem lookupCluster_setCluster_ne (cm : ClusterMap) (n m : String) (cfg : Nat)
    (h : n ≠ m) : lookupCluster (setCluster cm n cfg) m = lookupCluster cm m := by
  induction cm with
  | nil => simp [setCluster, lookupCluster, h]
  | cons p rest ih =>
    obtain ⟨k, v⟩ := p
    by_cases hk : k = n
    · subst hk
      simp [setCluster, lookupCluster, h]
    · simp [setCluster, hk, lookupCluster, ih]

theorem addOrUpdateCluster_ok_lookup {cm : ClusterMap} {c : Cluster} {cm2 : ClusterMap}
    {b : Bool} (hv : c.valid = true) (h : addOrUpdateCluster cm c = Except.ok (cm2, b)) :
    lookupCluster cm2 c.name = some c.config := by
  unfold addOrUpdateCluster at h
  rw [hv] at h
  simp only [Bool.true_eq_false, if_false] at h
  cases heq : lookupCluster cm c.name with
  | some cfg =>
    rw [heq] at h
    dsimp only at h
    by_cases hcfg : cfg = c.config
    · rw [if_pos hcfg] at h
      cases h
      rw [heq, hcfg]
    · rw [if_neg hcfg] at h
      cases h
      exact lookupCluster_setCluster_self _ _ _
  | none =>
    rw [heq] at h
    dsimp only at h
    cases h
    exact lookupCluster_setCluster_self _ _ _

theorem addOrUpdateCluster_ok_lookup_ne {cm : ClusterMap} {c : Cluster} {cm2 : ClusterMap}
    {b : Bool} {m : String} (hm : c.name ≠ m)
    (h : addOrUpdateCluster cm c = Except.ok (cm2, b)) :
    lookupCluster cm2 m = lookupCluster cm m := by
  unfold addOrUpdateCluster at h
  by_cases hv : c.valid = false
  · rw [if_pos hv] at h
    exact absurd h (by simp)
  · rw [if_neg hv] at h
    cases heq : lookupCluster cm c.name with
    | some cfg =>
      rw [heq] at h
      dsimp only at h
      by_cases hcfg : cfg = c.config
      · rw [if_pos hcfg] at h
        cases h
        rfl
      · rw [if_neg hcfg] at h
        cases h
        exact lookupCluster_setCluster_ne _ _ _ _ hm
    | none =>
      rw [heq] at h
      dsimp only at h
      cases h
      exact lookupCluster_setCluster_ne _ _ _ _ hm

theorem processAddedResource_msgs (st : CdsLoopState) (c : Cluster) :
    ∃ ex, (processAddedResource st c).exceptionMsgs = st.exceptionMsgs ++ ex := by
  unfold processAddedResource
  cases hc : st.clusterNames.contains c.name with
  | true => exact ⟨[cdsDuplicateMsg c], by simp⟩
  | false =>
    cases hres : addOrUpdateCluster st.cm c with
    | error e => exact ⟨[c.name ++ ": " ++ e], by simp⟩
    | ok p => exact ⟨[], by simp⟩

theorem foldl_processAddedResource_msgs (l : List Cluster) (st : CdsLoopState) :
    ∃ ex, (l.foldl processAddedResource st).exceptionMsgs = st.exceptionMsgs ++ ex := by
  induction l generalizing st with
  | nil => exact ⟨[], by simp⟩
  | cons d rest ih =>
    obtain ⟨ex1, h1⟩ := processAddedResource_msgs st d
    obtain ⟨ex2, h2⟩ := ih (processAddedResource st d)
    exact ⟨ex1 ++ ex2, by simp [List.foldl_cons, h2, h1]⟩

theorem processAddedResource_names_subset (st : CdsLoopState) (c : Cluster) :
    st.clusterNames ⊆ (processAddedResource st c).clusterNames := by
  unfold processAddedResource
  cases hc : st.clusterNames.contains c.name with
  | true => simp
  | false =>
    cases hres : addOrUpdateCluster st.cm c with
    | error e => exact fun x hx => List.mem_cons_of_mem _ hx
    | ok p => exact fun x hx => List.mem_cons_of_mem _ hx

theorem processAddedResource_name_mem (st : CdsLoopState) (c : Cluster) :
    c.name ∈ (processAddedResource st c).clusterNames := by
  unfold processAddedResource
  cases hc : st.clusterNames.contains c.name with
  | true =>
    simpa using List.mem_of_elem_eq_true hc
  | false =>
    cases hres : addOrUpdateCluster st.cm c with
    | error e => exact List.mem_cons_self _ _
    | ok p => exact List.mem_cons_self _ _

theorem processAddedResource_names_bound (st : CdsLoopState) (c : Cluster) :
    (processAddedResource st c).clusterNames ⊆ c.name :: st.clusterNames := by
  unfold processAddedResource
  cases hc : st.clusterNames.contains c.name with
  | true => exact fun x hx => List.mem_cons_of_mem _ hx
  | false =>
    cases hres : addOrUpdateCluster st.cm c with
    | error e => exact fun x hx => hx
    | ok p => exact fun x hx => hx

theorem processAddedResource_dup (st : CdsLoopState) (c : Cluster)
    (hc : st.clusterNames.contains c.name = true) :
    (processAddedResource st c).cm = st.cm ∧
      (processAddedResource st c).exceptionMsgs = st.exceptionMsgs ++ [cdsDuplicateMsg c] := by
  unfold processAddedResource
  rw [hc]
  exact ⟨rfl, rfl⟩

theorem processAddedResource_fresh_valid (st : CdsLoopState) (c : Cluster)
    (hc : st.clusterNames.contains c.name = false) (hv : c.valid = true) :
    lookupCluster (processAddedResource st c).cm c.name = some c.config ∧
      (processAddedResource st c).exceptionMsgs = st.exceptionMsgs := by
  unfold processAddedResource
  rw [hc]
  simp only [Bool.false_eq_true, if_false]
  cases hres : addOrUpdateCluster st.cm c with
  | error e =>
    exfalso
    unfold addOrUpdateCluster at hres
    rw [hv] at hres
    simp only [Bool.true_eq_false, if_false] at hres
    cases heq : lookupCluster st.cm c.name with
    | some cfg =>
      rw [heq] at hres
      dsimp only at hres
      by_cases hcfg : cfg = c.config
      · rw [if_pos hcfg] at hres
        cases hres
      · rw [if_neg hcfg] at hres
        cases hres
    | none =>
      rw [heq] at hres
      dsimp only at hres
      cases hres
  | ok p =>
    obtain ⟨cm2, applied⟩ := p
    exact ⟨addOrUpdateCluster_ok_lookup hv hres, rfl⟩

theorem processAddedResource_fresh_invalid (st : CdsLoopState) (c : Cluster)
    (hc : st.clusterNames.contains c.name = false) (hv : c.valid = false) :
    (processAddedResource st c).cm = st.cm ∧
      (processAddedResource st c).exceptionMsgs = st.exceptionMsgs ++ [cdsInvalidMsg c] := by
  unfold processAddedResource
  rw [hc]
  simp only [Bool.false_eq_true, if_false]
  have hres : addOrUpdateCluster st.cm c = Except.error (clusterInvalidWhat c) := by
    unfold addOrUpdateCluster
    rw [hv, if_pos rfl]
  rw [hres]
  exact ⟨rfl, rfl⟩

theorem processAddedResource_lookup_ne (st : CdsLoopState) (c : Cluster) (m : String)
    (hm : c.name ≠ m) :
    lookupCluster (processAddedResource st c).cm m = lookupCluster st.cm m := by
  unfold processAddedResource
  cases hc : st.clusterNames.contains c.name with
  | true => rfl
  | false =>
    simp only [Bool.false_eq_true, if_false]
    cases hres : addOrUpdateCluster st.cm c with
    | error e => rfl
    | ok p =>
      obtain ⟨cm2, applied⟩ := p
      exact addOrUpdateCluster_ok_lookup_ne hm hres

theorem foldl_processAddedResource_lookup_ne (l : List Cluster) (st : CdsLoopState)
    (m : String) (hm : ∀ c ∈ l, c.name ≠ m) :
    lookupCluster (l.foldl processAddedResource st).cm m = lookupCluster st.cm m := by
  induction l generalizing st with
  | nil => rfl
  | cons d rest ih =>
    rw [List.foldl_cons, ih _ (fun c hc => hm c (List.mem_cons_of_mem _ hc)),
      processAddedResource_lookup_ne _ _ _ (hm d (List.mem_cons_self _ _))]

theorem foldl_processAddedResource_applies (l : List Cluster) (st : CdsLoopState)
    (hnd : (l.map Cluster.name).Nodup)
    (hfresh : ∀ c ∈ l, st.clusterNames.contains c.name = false) :
    ∀ c ∈ l, c.valid = true →
      lookupCluster (l.foldl processAddedResource st).cm c.name = some c.config := by
  induction l generalizing st with
  | nil => intro c hc; cases hc
  | cons d rest ih =>
    intro c hc hv
    rw [List.map_cons, List.nodup_cons] at hnd
    have hdfresh := hfresh d (List.mem_cons_self _ _)
    have hrestfresh : ∀ c' ∈ rest,
        (processAddedResource st d).clusterNames.contains c'.name = false := by
      intro c' hc'
      rw [Bool.eq_false_iff]
      intro hcontains
      have hmem := List.mem_of_elem_eq_true hcontains
      have := processAddedResource_names_bound st d hmem
      rcases List.mem_cons.mp this with heq | hmem2
      · exact hnd.1 (heq ▸ List.mem_map_of_mem Cluster.name hc')
      · have hcf := hfresh c' (List.mem_cons_of_mem _ hc')
        exact absurd hmem2 (by simpa using hcf)
    rcases List.mem_cons.mp hc with rfl | hcrest
    · rw [List.foldl_cons]
      rw [foldl_processAddedResource_lookup_ne rest (processAddedResource st c) c.name
        (fun c' hc' hne => hnd.1 (hne ▸ List.mem_map_of_mem Cluster.name hc'))]
      exact (processAddedResource_fresh_valid st c hdfresh hv).1
    · rw [List.foldl_cons]
      exact ih (processAddedResource st d) hnd.2 hrestfresh c hcrest hv

theorem foldl_processAddedResource_msgs_closed (l : List Cluster) (st : CdsLoopState)
    (hnd : (l.map Cluster.name).Nodup)
    (hfresh : ∀ c ∈ l, st.clusterNames.contains c.name = false) :
    (l.foldl processAddedResource st).exceptionMsgs =
      st.exceptionMsgs ++ (l.filter (fun c => !c.valid)).map cdsInvalidMsg := by
  induction l generalizing st with
  | nil => simp
  | cons d rest ih =>
    rw [List.map_cons, List.nodup_cons] at hnd
    have hdfresh := hfresh d (List.mem_cons_self _ _)
    have hrestfresh : ∀ c' ∈ rest,
        (processAddedResource st d).clusterNames.contains c'.name = false := by
      intro c' hc'
      rw [Bool.eq_false_iff]
      intro hcontains
      have hmem := List.mem_of_elem_eq_true hcontains
      have := processAddedResource_names_bound st d hmem
      rcases List.mem_cons.mp this with heq | hmem2
      · exact hnd.1 (heq ▸ List.mem_map_of_mem Cluster.name hc')
      · have hcf := hfresh c' (List.mem_cons_of_mem _ hc')
        exact absurd hmem2 (by simpa using hcf)
    rw [List.foldl_cons, ih (processAddedResource st d) hnd.2 hrestfresh]
    cases hv : d.valid with
    | true =>
      rw [(processAddedResource_fresh_valid st d hdfresh hv).2]
      simp [List.filter_cons, hv]
    | false =>
      rw [(processAddedResource_fresh_invalid st d hdfresh hv).2]
      simp [List.filter_cons, hv]

theorem foldl_processAddedResource_msgs_ne_nil_of_seen (l : List Cluster) (st : CdsLoopState)
    (h : ∃ c ∈ l, c.name ∈ st.clusterNames) :
    (l.foldl processAddedResource st).exceptionMsgs ≠ [] := by
  induction l generalizing st with
  | nil => obtain ⟨c, hc, _⟩ := h; cases hc
  | cons d rest ih =>
    obtain ⟨c, hc, hcn⟩ := h
    rcases List.mem_cons.mp hc with rfl | hcrest
    · rw [List.foldl_cons]
      obtain ⟨ex, hex⟩ := foldl_processAddedResource_msgs rest (processAddedResource st c)
      rw [hex, (processAddedResource_dup st c (List.elem_eq_true_of_mem hcn)).2]
      simp
    · rw [List.foldl_cons]
      exact ih (processAddedResource st d)
        ⟨c, hcrest, processAddedResource_names_subset st d hcn⟩

theorem foldl_processAddedResource_msgs_ne_nil_of_dup (l : List Cluster) (st : CdsLoopState)
    (h : ¬ (l.map Cluster.name).Nodup) :
    (l.foldl processAddedResource st).exceptionMsgs ≠ [] := by
  induction l generalizing st with
  | nil => exact absurd List.nodup_nil h
  | cons d rest ih =>
    rw [List.map_cons, List.nodup_cons] at h
    rw [List.foldl_cons]
    by_cases hmem : d.name ∈ List.map Cluster.name rest
    · obtain ⟨c, hc, hcn⟩ := List.mem_map.mp hmem
      exact foldl_processAddedResource_msgs_ne_nil_of_seen rest (processAddedResource st d)
        ⟨c, hc, hcn ▸ processAddedResource_name_mem st d⟩
    · have hrest : ¬ (List.map Cluster.name rest).Nodup := fun hn => h ⟨hmem, hn⟩
      exact ih (processAddedResource st d) hrest

theorem lookupCluster_filter_ne (cm : ClusterMap) (n m : String) (h : m ≠ n) :
    lookupCluster (cm.filter (fun p => !(p.1 == n))) m = lookupCluster cm m := by
  induction cm with
  | nil => rfl
  | cons p rest ih =>
    obtain ⟨k, v⟩ := p
    by_cases hk : k = n
    · have hcond : (!((k, v).1 == n)) = false := by simp [hk]
      rw [List.filter_cons, hcond]
      have hkm : ¬ k = m := fun hkm => h (hkm ▸ hk ▸ rfl)
      simp only [Bool.false_eq_true, if_false]
      rw [ih]
      show lookupCluster rest m = if k = m then some v else lookupCluster rest m
      rw [if_neg hkm]
    · have hcond : (!((k, v).1 == n)) = true := by simp [hk]
      rw [List.filter_cons, hcond]
      simp only [if_true]
      show (if k = m then some v else lookupCluster (rest.filter (fun p => !(p.1 == n))) m) =
        if k = m then some v else lookupCluster rest m
      rw [ih]

theorem lookupCluster_removeCluster_ne (cm : ClusterMap) (n m : String) (h : m ≠ n) :
    lookupCluster (removeCluster cm n).1 m = lookupCluster cm m :=
  lookupCluster_filter_ne cm n m h

theorem foldl_processRemovedResource_lookup_ne (l : List String) (p : ClusterMap × Bool)
    (m : String) (hm : m ∉ l) :
    lookupCluster (l.foldl processRemovedResource p).1 m = lookupCluster p.1 m := by
  induction l generalizing p with
  | nil => rfl
  | cons n rest ih =>
    rw [List.foldl_cons]
    have hne : m ≠ n := fun h => hm (h ▸ List.mem_cons_self _ _)
    rw [ih _ (fun h => hm (List.mem_cons_of_mem _ h))]
    exact lookupCluster_removeCluster_ne p.1 n m hne

theorem onConfigUpdate_fst_cm (s : CdsState) (added : List Cluster) (removed : List String)
    (v : String) :
    (CdsApiImpl.onConfigUpdate s added removed v).1.cm =
      (removed.foldl processRemovedResource
        ((added.foldl processAddedResource ⟨s.cm, [], [], false⟩).cm,
         (added.foldl processAddedResource ⟨s.cm, [], [], false⟩).anyApplied)).1 := rfl

theorem onConfigUpdate_snd (s : CdsState) (added : List Cluster) (removed : List String)
    (v : String) :
    (CdsApiImpl.onConfigUpdate s added removed v).2 =
      if (added.foldl processAddedResource ⟨s.cm, [], [], false⟩).exceptionMsgs.isEmpty
      then Except.ok ()
      else Except.error ("Error adding/updating cluster(s) " ++ String.intercalate ", "
        (added.foldl processAddedResource ⟨s.cm, [], [], false⟩).exceptionMsgs) := rfl

/-- Claim C3 (amended): a type's resource set is updated per resource, not
atomically. Every valid resource of a response whose name is unique in the
response and not simultaneously removed is applied — even when other resources
of the same response fail — and resources applied before a failure are never
rolled back: whenever some resource is invalid the update ends in the thrown
(NACK-producing) exception while the valid resources remain applied. -/
theorem cds_update_is_per_resource (s : CdsState) (added : List Cluster)
    (removed : List String) (v : String) (hnd : (added.map Cluster.name).Nodup) :
    (∀ c ∈ added, c.valid = true → c.name ∉ removed →
      lookupCluster (CdsApiImpl.onConfigUpdate s added removed v).1.cm c.name = some c.config) ∧
    ((∃ c ∈ added, c.valid = false) →
      (CdsApiImpl.onConfigUpdate s added removed v).2 ≠ Except.ok ()) := by
  constructor
  · intro c hc hv hnr
    rw [onConfigUpdate_fst_cm]
    rw [foldl_processRemovedResource_lookup_ne _ _ _ hnr]
    exact foldl_processAddedResource_applies added ⟨s.cm, [], [], false⟩ hnd
      (fun _ _ => rfl) c hc hv
  · rintro ⟨c, hc, hv⟩
    rw [onConfigUpdate_snd,
      foldl_processAddedResource_msgs_closed added ⟨s.cm, [], [], false⟩ hnd (fun _ _ => rfl)]
    have hcmem : c ∈ added.filter (fun c => !c.valid) :=
      List.mem_filter.mpr ⟨hc, by simp [hv]⟩
    have hne : (added.filter (fun c => !c.valid)).map cdsInvalidMsg ≠ [] := by
      simp only [ne_eq, List.map_eq_nil_iff]
      exact List.ne_nil_of_mem hcmem
    have hie : (([] : List String) ++
        (added.filter (fun c => !c.valid)).map cdsInvalidMsg).isEmpty = false := by
      simp only [List.nil_append]
      cases hmap : (added.filter (fun c => !c.valid)).map cdsInvalidMsg with
      | nil => exact absurd hmap hne
      | cons a l => rfl
    rw [hie]
    simp only [Bool.false_eq_true, if_false, ne_eq]
    exact fun h => Except.noConfusion h

/-- Claim C3 counterexample: for the response carrying clusters
`a ↦ 1` and `a ↦ 2` (a duplicate name, both payloads individually valid)
against the prior state `a ↦ 5`, the claimed disjunction fails: not every valid
resource of the response is applied (the second one's configuration is not in
effect), and the prior state is not retained either — a partial apply. -/
theorem cds_atomicity_cex :
    (¬ ∀ c ∈ ([⟨"a", 1, true⟩, ⟨"a", 2, true⟩] : List Cluster), c.valid = true →
        lookupCluster (CdsApiImpl.onConfigUpdate ⟨[("a", 5)], "0"⟩
          [⟨"a", 1, true⟩, ⟨"a", 2, true⟩] [] "1").1.cm c.name = some c.config) ∧
      (CdsApiImpl.onConfigUpdate ⟨[("a", 5)], "0"⟩
        [⟨"a", 1, true⟩, ⟨"a", 2, true⟩] [] "1").1 ≠ ⟨[("a", 5)], "0"⟩ := by
  constructor
  · decide
  · decide

/-- Witness for `cds_update_is_per_resource` at a concrete input. -/
theorem cds_update_is_per_resource_witness :
    lookupCluster (CdsApiImpl.onConfigUpdate ⟨[], "0"⟩
      [⟨"x", 1, true⟩, ⟨"y", 2, false⟩] [] "1").1.cm "x" = some 1 ∧
    (CdsApiImpl.onConfigUpdate ⟨[], "0"⟩
      [⟨"x", 1, true⟩, ⟨"y", 2, false⟩] [] "1").2 ≠ Except.ok () :=
  ⟨(cds_update_is_per_resource ⟨[], "0"⟩ [⟨"x", 1, true⟩, ⟨"y", 2, false⟩] [] "1"
      (by decide)).1 ⟨"x", 1, true⟩ (by decide) rfl (by decide),
   (cds_update_is_per_resource ⟨[], "0"⟩ [⟨"x", 1, true⟩, ⟨"y", 2, false⟩] [] "1"
      (by decide)).2 ⟨⟨"y", 2, false⟩, by decide, rfl⟩⟩

/-- Claim C4: a per-resource failure never aborts processing of its siblings —
in a response with pairwise-distinct resource names, every valid resource not
simultaneously removed is applied no matter which other resources fail — and
the accumulated errors are reported only after the whole resource list has been
traversed, as a single aggregated exception joining the messages of exactly the
failing resources, in response order. -/
theorem cds_sibling_isolation (s : CdsState) (added : List Cluster)
    (removed : List String) (v : String) (hnd : (added.map Cluster.name).Nodup) :
    ((CdsApiImpl.onConfigUpdate s added removed v).2 =
      if (added.filter fun c => !c.valid) = [] then Except.ok ()
      else Except.error ("Error adding/updating cluster(s) " ++ String.intercalate ", "
        ((added.filter fun c => !c.valid).map cdsInvalidMsg))) ∧
    (∀ c ∈ added, c.valid = true → c.name ∉ removed →
      lookupCluster (CdsApiImpl.onConfigUpdate s added removed v).1.cm c.name = some c.config) := by
  constructor
  · rw [onConfigUpdate_snd,
      foldl_processAddedResource_msgs_closed added ⟨s.cm, [], [], false⟩ hnd (fun _ _ => rfl)]
    simp only [List.nil_append]
    by_cases hfe : (added.filter fun c => !c.valid) = []
    · rw [hfe, if_pos rfl]
      simp
    · rw [if_neg hfe]
      have hie : ((added.filter (fun c => !c.valid)).map cdsInvalidMsg).isEmpty = false := by
        cases hmap : (added.filter (fun c => !c.valid)).map cdsInvalidMsg with
        | nil => exact absurd (List.map_eq_nil_iff.mp hmap) hfe
        | cons a l => rfl
      rw [hie]
      simp
  · intro c hc hv hnr
    rw [onConfigUpdate_fst_cm]
    rw [foldl_processRemovedResource_lookup_ne _ _ _ hnr]
    exact foldl_processAddedResource_applies added ⟨s.cm, [], [], false⟩ hnd
      (fun _ _ => rfl) c hc hv

/-- Witness for `cds_sibling_isolation` at a concrete input. -/
theorem cds_sibling_isolation_witness :
    (CdsApiImpl.onConfigUpdate ⟨[], "0"⟩
      [⟨"p", 3, true⟩, ⟨"q", 4, false⟩, ⟨"r", 5, true⟩] [] "2").2 =
      (if (([⟨"p", 3, true⟩, ⟨"q", 4, false⟩, ⟨"r", 5, true⟩] : List Cluster).filter
            fun c => !c.valid) = []
       then Except.ok ()
       else Except.error ("Error adding/updating cluster(s) " ++ String.intercalate ", "
         ((([⟨"p", 3, true⟩, ⟨"q", 4, false⟩, ⟨"r", 5, true⟩] : List Cluster).filter
            fun c => !c.valid).map cdsInvalidMsg))) :=
  (cds_sibling_isolation ⟨[], "0"⟩ [⟨"p", 3, true⟩, ⟨"q", 4, false⟩, ⟨"r", 5, true⟩] [] "2"
    (by decide)).1

/-- Claim C2 counterexample: for the response containing two resources named
`"a"`, the next request does carry a NACK (the update ends in the aggregated
exception), but the response is not rejected as a batch: the first occurrence
of `"a"` has been applied, so the cluster set is no longer the prior one. -/
theorem cds_batch_rejection_cex :
    (CdsApiImpl.onConfigUpdate ⟨[], "0"⟩ [⟨"a", 1, true⟩, ⟨"a", 2, true⟩] [] "1").2 ≠
      Except.ok () ∧
    ¬ (CdsApiImpl.onConfigUpdate ⟨[], "0"⟩
        [⟨"a", 1, true⟩, ⟨"a", 2, true⟩] [] "1").1.cm = ([] : ClusterMap) := by
  decide

/-- Claim C2 (amended): a duplicate resource name within a single response is a
per-resource failure, not a batch failure: the response is NACKed on the next
request (the update throws), but the duplicate occurrence is the only one
rejected — in particular the first occurrence of the duplicated name is still
applied. -/
theorem cds_duplicate_nacks_but_applies (s : CdsState) (v : String) :
    (∀ (added : List Cluster) (removed : List String), ¬ (added.map Cluster.name).Nodup →
      (CdsApiImpl.onConfigUpdate s added removed v).2 ≠ Except.ok ()) ∧
    (∀ c1 c2 : Cluster, c1.valid = true → c1.name = c2.name →
      lookupCluster (CdsApiImpl.onConfigUpdate s [c1, c2] [] v).1.cm c1.name =
        some c1.config) := by
  constructor
  · intro added removed hdup
    rw [onConfigUpdate_snd]
    have hne := foldl_processAddedResource_msgs_ne_nil_of_dup added ⟨s.cm, [], [], false⟩ hdup
    have hie : (added.foldl processAddedResource ⟨s.cm, [], [], false⟩).exceptionMsgs.isEmpty
        = false := by
      cases hmsgs : (added.foldl processAddedResource ⟨s.cm, [], [], false⟩).exceptionMsgs with
      | nil => exact absurd hmsgs hne
      | cons a l => rfl
    rw [hie]
    simp only [Bool.false_eq_true, if_false, ne_eq]
    exact fun h => Except.noConfusion h
  · intro c1 c2 hv hname
    have h1 := processAddedResource_fresh_valid ⟨s.cm, [], [], false⟩ c1 rfl hv
    have hmem : c2.name ∈ (processAddedResource ⟨s.cm, [], [], false⟩ c1).clusterNames :=
      hname ▸ processAddedResource_name_mem ⟨s.cm, [], [], false⟩ c1
    have hdup := processAddedResource_dup (processAddedResource ⟨s.cm, [], [], false⟩ c1) c2
      (List.elem_eq_true_of_mem hmem)
    have hgoal : (CdsApiImpl.onConfigUpdate s [c1, c2] [] v).1.cm =
        (processAddedResource (processAddedResource ⟨s.cm, [], [], false⟩ c1) c2).cm := rfl
    rw [hgoal, hdup.1]
    exact h1.1

/-- Witness for `cds_duplicate_nacks_but_applies` at a concrete input. -/
theorem cds_duplicate_nacks_but_applies_witness :
    (CdsApiImpl.onConfigUpdate ⟨[], "0"⟩ [⟨"b", 1, true⟩, ⟨"b", 2, true⟩] [] "7").2 ≠
      Except.ok () ∧
    lookupCluster (CdsApiImpl.onConfigUpdate ⟨[], "0"⟩
      [⟨"b", 1, true⟩, ⟨"b", 2, true⟩] [] "7").1.cm "b" = some 1 :=
  ⟨(cds_duplicate_nacks_but_applies ⟨[], "0"⟩ "7").1 [⟨"b", 1, true⟩, ⟨"b", 2, true⟩] []
      (by decide),
   (cds_duplicate_nacks_but_applies ⟨[], "0"⟩ "7").2 ⟨"b", 1, true⟩ ⟨"b", 2, true⟩ rfl rfl⟩

/-!
Part 2 embeds `FilterConfigSubscription::onConfigUpdate`
(`common/filter/http/filter_config_discovery_impl.cc` in the sources): the
extension-config discovery update path with its skip-on-equal-hash branch,
per-provider type-URL validation, and last-applied bookkeeping.
-/

/-- The `typed_config` `Any` payload of a `TypedExtensionConfig`: its type URL
(`Config::Utility::getFactoryType`) and an opaque value standing for the
serialized configuration. -/
structure TypedConfig where
  typeUrl : String
  value : Nat
deriving DecidableEq, Repr

/-- A `envoy.config.core.v3.TypedExtensionConfig` resource as decoded for the
extension-config discovery subscription. -/
structure TypedExtensionConfig where
  name : String
  typedConfig : TypedConfig
deriving DecidableEq, Repr

/-- A `DynamicFilterConfigProviderImpl` registered with the subscription:
`validateTypeUrl` throws unless the factory type URL is contained in
`require_type_urls_`. -/
structure EcdsProvider where
  id : Nat
  requireTypeUrls : List String
deriving DecidableEq, Repr

/-- The state of a `FilterConfigSubscription`: its resource name, the hash of
the last applied typed config (`last_config_hash_`), the last factory callback
(`last_config_`, modelled by the config value it was built from),
`last_type_url_`, `last_version_info_`, and the registered providers. -/
structure EcdsState where
  filterConfigName : String
  lastConfigHash : Nat
  lastConfig : Option Nat
  lastTypeUrl : String
  lastVersionInfo : String
  providers : List EcdsProvider
deriving DecidableEq, Repr

/-- `DynamicFilterConfigProviderImpl::validateTypeUrl` applied to every
provider of the subscription, as in the update loop: the first provider whose
`require_type_urls_` does not contain the factory type URL throws. -/
def validateProviders (providers : List EcdsProvider) (typeUrl : String) :
    Except String Unit :=
  match providers.find? (fun p => !(p.requireTypeUrls.contains typeUrl)) with
  | some _ => Except.error ("Error: filter config has type URL " ++ typeUrl ++
      " but expect another")
  | none => Except.ok ()

/-- `FilterConfigSubscription::onConfigUpdate` (SotW overload). `hashFn` stands
for the deterministic `MessageUtil::hash` of the typed config (an external
utility). Checks, in source order: exactly one resource, the expected resource
name, then the skip-on-equal-hash early return; otherwise validates the type
URL against every provider (a throw leaves the stored state untouched),
invokes every provider's update callback with the new factory callback, and
records hash, config, type URL and version. Returns the callback invocations
as `(provider id, config value)` pairs; `Except.error` models a thrown
`EnvoyException`. -/
def FilterConfigSubscription.onConfigUpdate (hashFn : TypedConfig → Nat)
    (s : EcdsState) (resources : List TypedExtensionConfig) (versionInfo : String) :
    Except String (EcdsState × List (Nat × Nat)) :=
  match resources with
  | [fc] =>
    if fc.name = s.filterConfigName then
      if hashFn fc.typedConfig = s.lastConfigHash then
        Except.ok (s, [])
      else
        match validateProviders s.providers fc.typedConfig.typeUrl with
        | Except.error e => Except.error e
        | Except.ok () =>
          Except.ok (
            { s with lastConfigHash := hashFn fc.typedConfig,
                     lastConfig := some fc.typedConfig.value,
                     lastTypeUrl := fc.typedConfig.typeUrl,
                     lastVersionInfo := versionInfo },
            s.providers.map (fun p => (p.id, fc.typedConfig.value)))
    else
      Except.error ("Unexpected resource name in ExtensionConfigDS response: " ++ fc.name)
  | rs => Except.error ("Unexpected number of resources in ExtensionConfigDS response: " ++
      toString rs.length)

example :
    FilterConfigSubscription.onConfigUpdate (fun c => c.value)
      ⟨"f", 0, none, "", "", [⟨1, ["t"]⟩]⟩ [⟨"f", ⟨"t", 9⟩⟩] "v1" =
      Except.ok (⟨"f", 9, some 9, "t", "v1", [⟨1, ["t"]⟩]⟩, [(1, 9)]) := rfl

example :
    FilterConfigSubscription.onConfigUpdate (fun c => c.value)
      ⟨"f", 9, some 9, "t", "v1", [⟨1, ["t"]⟩]⟩ [⟨"f", ⟨"t", 9⟩⟩] "v2" =
      Except.ok (⟨"f", 9, some 9, "t", "v1", [⟨1, ["t"]⟩]⟩, []) := rfl

/-- Claim C10: an extension-config update whose typed config hashes to the hash
of the last applied config is a no-op — `onConfigUpdate` returns with no
provider callback invoked and the stored last config, type URL and version
unchanged — and consequently applying the same configuration twice equals
applying it once. -/
theorem ecds_equal_hash_noop (hashFn : TypedConfig → Nat) :
    (∀ (s : EcdsState) (fc : TypedExtensionConfig) (v : String),
      fc.name = s.filterConfigName → hashFn fc.typedConfig = s.lastConfigHash →
      FilterConfigSubscription.onConfigUpdate hashFn s [fc] v = Except.ok (s, [])) ∧
    (∀ (s : EcdsState) (fc : TypedExtensionConfig) (v : String) (s2 : EcdsState)
      (cbs : List (Nat × Nat)),
      FilterConfigSubscription.onConfigUpdate hashFn s [fc] v = Except.ok (s2, cbs) →
      FilterConfigSubscription.onConfigUpdate hashFn s2 [fc] v = Except.ok (s2, [])) := by
  constructor
  · intro s fc v hname hhash
    unfold FilterConfigSubscription.onConfigUpdate
    dsimp only
    rw [if_pos hname, if_pos hhash]
  · intro s fc v s2 cbs h
    unfold FilterConfigSubscription.onConfigUpdate at h ⊢
    dsimp only at h ⊢
    by_cases hname : fc.name = s.filterConfigName
    · rw [if_pos hname] at h
      by_cases hhash : hashFn fc.typedConfig = s.lastConfigHash
      · rw [if_pos hhash] at h
        have hs2 : s = s2 := congrArg Prod.fst (Except.ok.inj h)
        subst hs2
        rw [if_pos hname, if_pos hhash]
      · rw [if_neg hhash] at h
        cases hval : validateProviders s.providers fc.typedConfig.typeUrl with
        | error e =>
          rw [hval] at h
          cases h
        | ok u =>
          cases u
          rw [hval] at h
          dsimp only at h
          have hs2 := congrArg Prod.fst (Except.ok.inj h)
          subst hs2
          rw [if_pos hname, if_pos rfl]
    · rw [if_neg hname] at h
      cases h

/-- Witness for `ecds_equal_hash_noop` at a concrete input. -/
theorem ecds_equal_hash_noop_witness :
    FilterConfigSubscription.onConfigUpdate (fun c => c.value)
      ⟨"ecds_f", 7, some 7, "ty", "v0", [⟨2, ["ty"]⟩]⟩ [⟨"ecds_f", ⟨"ty", 7⟩⟩] "v9" =
      Except.ok (⟨"ecds_f", 7, some 7, "ty", "v0", [⟨2, ["ty"]⟩]⟩, []) :=
  (ecds_equal_hash_noop (fun c => c.value)).1
    ⟨"ecds_f", 7, some 7, "ty", "v0", [⟨2, ["ty"]⟩]⟩ ⟨"ecds_f", ⟨"ty", 7⟩⟩ "v9" rfl rfl

/-!
Part 3 models, from the spec, the resource-name canonicalization used for
xdstp:// glob-collection and singleton subscriptions. The URI
encoder/decoder itself is not among the sources (only the mux tests that
exercise it are), so it is modelled from the spec's canonicalization rule.
-/

/-- An xdstp:// structured resource name: authority, type segment, path and
ordered query (context) parameters. -/
structure XdsResourceName where
  authority : String
  resourceType : String
  path : String
  queryParams : List (String × String)
deriving DecidableEq, Repr

/-- Ordering of query parameters by key. -/
def paramKeyLe (a b : String × String) : Prop := a.1 ≤ b.1

instance : DecidableRel paramKeyLe :=
  fun a b => inferInstanceAs (Decidable (a.1 ≤ b.1))

instance : IsTotal (String × String) paramKeyLe := ⟨fun a b => le_total a.1 b.1⟩

instance : IsTrans (String × String) paramKeyLe := ⟨fun _ _ _ h1 h2 => le_trans h1 h2⟩

instance : IsAntisymm (String × String) (fun a b : String × String => a.1 < b.1) :=
  ⟨fun _ _ h1 h2 => absurd (lt_trans h1 h2) (lt_irrefl _)⟩

/-- Modelled from the spec: the canonicalization rule of the resource-name
encoder (the `xdstp://` URI support of the mux, not among the sources): query
parameters are sorted lexicographically by key before being compared or
transmitted. -/
def sortParams (ps : List (String × String)) : List (String × String) :=
  List.insertionSort paramKeyLe ps

/-- Modelled from the spec: serialization of the (canonicalized) query
parameters as a query string. -/
def encodeContextParams (ps : List (String × String)) : String :=
  match sortParams ps with
  | [] => ""
  | qs => "?" ++ String.intercalate "&" (qs.map (fun p => p.1 ++ "=" ++ p.2))

/-- Modelled from the spec: the canonical string form of an xdstp:// resource
name — the exact bytes placed in an outbound subscribe entry. -/
def encodeUri (u : XdsResourceName) : String :=
  "xdstp://" ++ u.authority ++ "/" ++ u.resourceType ++ "/" ++ u.path ++
    encodeContextParams u.queryParams

/-- Modelled from the spec: a response resource name is matched to a
subscription by string equality of the canonical forms. -/
def matchesSubscribedName (subscribed resource : XdsResourceName) : Bool :=
  encodeUri subscribed == encodeUri resource

theorem sortParams_eq_of_perm (ps qs : List (String × String))
    (hperm : ps.Perm qs) (hnd : (ps.map Prod.fst).Nodup) :
    sortParams ps = sortParams qs := by
  have hp1 : (sortParams ps).Perm ps := List.perm_insertionSort _ _
  have hp2 : (sortParams qs).Perm qs := List.perm_insertionSort _ _
  have hperm2 : (sortParams ps).Perm (sortParams qs) := hp1.trans (hperm.trans hp2.symm)
  have hs1 : List.Pairwise paramKeyLe (sortParams ps) := List.sorted_insertionSort _ _
  have hs2 : List.Pairwise paramKeyLe (sortParams qs) := List.sorted_insertionSort _ _
  have hndq : (qs.map Prod.fst).Nodup := ((hperm.map Prod.fst).nodup_iff).mp hnd
  have hnd1 : ((sortParams ps).map Prod.fst).Nodup := ((hp1.map Prod.fst).nodup_iff).mpr hnd
  have hnd2 : ((sortParams qs).map Prod.fst).Nodup := ((hp2.map Prod.fst).nodup_iff).mpr hndq
  have hne1 : List.Pairwise (fun a b : String × String => a.1 ≠ b.1) (sortParams ps) :=
    List.pairwise_map.mp hnd1
  have hne2 : List.Pairwise (fun a b : String × String => a.1 ≠ b.1) (sortParams qs) :=
    List.pairwise_map.mp hnd2
  have hlt1 : List.Pairwise (fun a b : String × String => a.1 < b.1) (sortParams ps) :=
    (hs1.and hne1).imp (fun h => lt_of_le_of_ne h.1 h.2)
  have hlt2 : List.Pairwise (fun a b : String × String => a.1 < b.1) (sortParams qs) :=
    (hs2.and hne2).imp (fun h => lt_of_le_of_ne h.1 h.2)
  exact List.eq_of_perm_of_sorted hperm2 hlt1 hlt2

/-- Claim C1: two resource-name URIs identical except for the order of their
query parameters canonicalize to the same string (parameters sorted
lexicographically by key), hence yield byte-identical outbound subscribe
entries, and a response resource whose name differs from the subscribed name
only in parameter order is matched to that subscription. -/
theorem xdstp_param_order_canonicalized (u v : XdsResourceName)
    (ha : u.authority = v.authority) (ht : u.resourceType = v.resourceType)
    (hp : u.path = v.path) (hq : u.queryParams.Perm v.queryParams)
    (hnd : (u.queryParams.map Prod.fst).Nodup) :
    encodeUri u = encodeUri v ∧ matchesSubscribedName u v = true := by
  have hsort := sortParams_eq_of_perm _ _ hq hnd
  have henc : encodeUri u = encodeUri v := by
    unfold encodeUri encodeContextParams
    rw [ha, ht, hp, hsort]
  refine ⟨henc, ?_⟩
  unfold matchesSubscribedName
  rw [henc]
  simp

/-- Witness for `xdstp_param_order_canonicalized`, at the concrete glob
subscription of the mux tests. -/
theorem xdstp_param_order_canonicalized_witness :
    encodeUri ⟨"foo", "envoy.config.endpoint.v3.ClusterLoadAssignment", "bar/baz",
        [("thing", "some"), ("some", "thing")]⟩ =
      encodeUri ⟨"foo", "envoy.config.endpoint.v3.ClusterLoadAssignment", "bar/baz",
        [("some", "thing"), ("thing", "some")]⟩ ∧
    matchesSubscribedName
        ⟨"foo", "envoy.config.endpoint.v3.ClusterLoadAssignment", "bar/baz",
          [("thing", "some"), ("some", "thing")]⟩
        ⟨"foo", "envoy.config.endpoint.v3.ClusterLoadAssignment", "bar/baz",
          [("some", "thing"), ("thing", "some")]⟩ = true :=
  xdstp_param_order_canonicalized _ _ rfl rfl rfl (List.Perm.swap _ _ _) (by decide)

/-!
Part 4 models, from the spec, the delta-discovery mux (`NewGrpcMuxImpl` with
its per-type subscription states and watch map). The mux implementation is not
among the sources — only its unit tests are — so response routing, version-alias
bridging, alias/namespace resolution and context-update resends are modelled
from the spec's words and checked against the behaviour the tests pin down.
-/

/-- Modelled from the spec: the API major version carried by a type URL
(the v2/v3 sibling aliases of one logical resource type). -/
inductive ApiVersion where
  | v2
  | v3
deriving DecidableEq, Repr

/-- Modelled from the spec: a resource type URL, split into its API-version
alias and the logical resource type it names. -/
structure TypeUrl where
  version : ApiVersion
  logical : String
deriving DecidableEq, Repr

/-- Modelled from the spec: the sibling version alias of a type URL (the
other API version of the same logical type, used by the
type-URL upgrade/downgrade compatibility path). -/
def TypeUrl.sibling (t : TypeUrl) : TypeUrl :=
  ⟨match t.version with
   | ApiVersion.v2 => ApiVersion.v3
   | ApiVersion.v3 => ApiVersion.v2,
   t.logical⟩

/-- Modelled from the spec: a watch — requested names (empty means wildcard)
and the namespace-matching option. -/
structure Watch where
  id : Nat
  requestedNames : List String
  useNamespaceMatching : Bool
deriving DecidableEq, Repr

/-- Modelled from the spec: a decoded response resource with its name, alias
list and opaque payload. -/
structure DecodedResource where
  name : String
  aliases : List String
  payload : Nat
deriving DecidableEq, Repr

/-- Modelled from the spec: the per-type subscription state — its watches,
the desired-name set, the names currently subscribed at the protocol level and
the last nonce. -/
structure Subscription where
  watches : List Watch
  desiredNames : List String
  namesSubscribed : List String
  lastNonce : String
deriving DecidableEq, Repr

/-- Modelled from the spec: the mux state — one subscription per type URL and
the client-side type-URL upgrade/downgrade compatibility flag. -/
structure MuxState where
  subscriptions : List (TypeUrl × Subscription)
  typeUrlUpgradeDowngradeEnabled : Bool
deriving DecidableEq, Repr

/-- Subscription lookup by type URL. -/
def lookupSub : List (TypeUrl × Subscription) → TypeUrl → Option Subscription
  | [], _ => none
  | (t, sub) :: rest, u => if t = u then some sub else lookupSub rest u

/-- Modelled from the spec: the namespace of a resource name — the leading
segment of the slash-separated name, as used by namespace (prefix) matching. -/
def namespaceOf (s : String) : String :=
  String.mk (s.data.takeWhile (fun c => !(c == Char.ofNat 47)))

/-- Modelled from the spec: whether a watch matches a response resource — a
wildcard watch matches everything; with namespace matching the resource's name
or any of its aliases must fall under a requested namespace; otherwise the
name or an alias must be a requested name. -/
def watchMatchesResource (w : Watch) (r : DecodedResource) : Bool :=
  if w.requestedNames.isEmpty then true
  else if w.useNamespaceMatching then
    w.requestedNames.contains (namespaceOf r.name) ||
      r.aliases.any (fun a => w.requestedNames.contains (namespaceOf a))
  else
    w.requestedNames.contains r.name ||
      r.aliases.any (fun a => w.requestedNames.contains a)

/-- A callback invocation delivered to one watch: its added resources and the
response's system version. -/
structure Delivery where
  watchId : Nat
  added : List DecodedResource
  version : String
deriving DecidableEq, Repr

/-- Modelled from the spec: the per-watch delivery for one response — the
filtered added set when non-empty, the empty update for a wildcard watch on an
empty response, and nothing otherwise. -/
def watchDelivery (w : Watch) (resources : List DecodedResource) (version : String) :
    Option Delivery :=
  if (resources.filter (watchMatchesResource w)).isEmpty = false then
    some ⟨w.id, resources.filter (watchMatchesResource w), version⟩
  else if resources.isEmpty && w.requestedNames.isEmpty then
    some ⟨w.id, [], version⟩
  else none

/-- Modelled from the spec: the callback dispatch of one type-wide response to
every watch of the type's subscription. -/
def deliveriesFor (sub : Subscription) (resources : List DecodedResource)
    (version : String) : List Delivery :=
  sub.watches.filterMap (fun w => watchDelivery w resources version)

/-- Update of the stored nonce of one type's subscription. -/
def setSubNonce (subs : List (TypeUrl × Subscription)) (t : TypeUrl) (nonce : String) :
    List (TypeUrl × Subscription) :=
  subs.map (fun p => if p.1 = t then (p.1, { p.2 with lastNonce := nonce }) else p)

/-- An inbound delta discovery response. -/
structure DeltaResponse where
  typeUrl : TypeUrl
  resources : List DecodedResource
  systemVersion : String
  nonce : String
deriving DecidableEq, Repr

/-- Modelled from the spec: `NewGrpcMuxImpl::onDiscoveryResponse` — look up the
response's type URL among the subscriptions; when absent and the
upgrade/downgrade flag is enabled, retry under the sibling version alias; when
neither is registered, ignore the response entirely (no state change, no
callbacks); otherwise record the nonce and dispatch to the watches. -/
def NewGrpcMuxImpl.onDiscoveryResponse (m : MuxState) (resp : DeltaResponse) :
    MuxState × List Delivery :=
  match lookupSub m.subscriptions resp.typeUrl with
  | some sub =>
    ({ m with subscriptions := setSubNonce m.subscriptions resp.typeUrl resp.nonce },
     deliveriesFor sub resp.resources resp.systemVersion)
  | none =>
    if m.typeUrlUpgradeDowngradeEnabled then
      match lookupSub m.subscriptions resp.typeUrl.sibling with
      | some sub =>
        ({ m with subscriptions := setSubNonce m.subscriptions resp.typeUrl.sibling resp.nonce },
         deliveriesFor sub resp.resources resp.systemVersion)
      | none => (m, [])
    else (m, [])

/-- An outbound delta discovery request. -/
structure DeltaRequest where
  typeUrl : TypeUrl
  subscribeNames : List String
  unsubscribeNames : List String
  responseNonce : String
  nodeAttached : Bool
deriving DecidableEq, Repr

/-- Modelled from the spec: the forced resend request built for a subscription
on a context update — subscribe/unsubscribe are the usual desired-minus-
subscribed deltas (empty when the desired set did not change) and the node
block is re-attached. -/
def buildForcedRequest (t : TypeUrl) (sub : Subscription) : DeltaRequest :=
  ⟨t, sub.desiredNames.filter (fun n => !(sub.namesSubscribed.contains n)),
      sub.namesSubscribed.filter (fun n => !(sub.desiredNames.contains n)),
      sub.lastNonce, true⟩

/-- Modelled from the spec: `NewGrpcMuxImpl::onDynamicContextUpdate` — a
context update naming one key forces a resend for exactly the subscriptions of
that type; every other subscription sends nothing. -/
def NewGrpcMuxImpl.onDynamicContextUpdate (m : MuxState) (key : TypeUrl) :
    List DeltaRequest :=
  m.subscriptions.filterMap
    (fun p => if p.1 = key then some (buildForcedRequest p.1 p.2) else none)

theorem onDiscoveryResponse_unknown (m : MuxState) (resp : DeltaResponse)
    (h1 : lookupSub m.subscriptions resp.typeUrl = none)
    (h2 : lookupSub m.subscriptions resp.typeUrl.sibling = none) :
    NewGrpcMuxImpl.onDiscoveryResponse m resp = (m, []) := by
  unfold NewGrpcMuxImpl.onDiscoveryResponse
  rw [h1]
  dsimp only
  cases hflag : m.typeUrlUpgradeDowngradeEnabled with
  | false => simp
  | true =>
    rw [h2]
    simp

theorem onDiscoveryResponse_known_snd (m : MuxState) (resp : DeltaResponse)
    (sub : Subscription) (h : lookupSub m.subscriptions resp.typeUrl = some sub) :
    (NewGrpcMuxImpl.onDiscoveryResponse m resp).2 =
      deliveriesFor sub resp.resources resp.systemVersion := by
  unfold NewGrpcMuxImpl.onDiscoveryResponse
  rw [h]

/-- Claim C5: a response whose type URL matches no registered subscription
(under neither version alias) is ignored — zero callback invocations and the
whole mux state, hence the next outbound request, unchanged — while an empty
response for a registered type is still delivered to a wildcard watch on that
type as an empty update. -/
theorem mux_unknown_type_isolated (m : MuxState) (resp : DeltaResponse)
    (h1 : lookupSub m.subscriptions resp.typeUrl = none)
    (h2 : lookupSub m.subscriptions resp.typeUrl.sibling = none) :
    NewGrpcMuxImpl.onDiscoveryResponse m resp = (m, []) ∧
    (∀ (t : TypeUrl) (sub : Subscription) (w : Watch) (ver nonce : String),
      lookupSub m.subscriptions t = some sub → w ∈ sub.watches →
      w.requestedNames = [] →
      (⟨w.id, [], ver⟩ : Delivery) ∈
        (NewGrpcMuxImpl.onDiscoveryResponse m ⟨t, [], ver, nonce⟩).2) := by
  constructor
  · exact onDiscoveryResponse_unknown m resp h1 h2
  · intro t sub w ver nonce hsub hw hreq
    rw [onDiscoveryResponse_known_snd m ⟨t, [], ver, nonce⟩ sub hsub]
    apply List.mem_filterMap.mpr
    refine ⟨w, hw, ?_⟩
    simp [watchDelivery, hreq]

/-- Witness for `mux_unknown_type_isolated` at a concrete input. -/
theorem mux_unknown_type_isolated_witness :
    NewGrpcMuxImpl.onDiscoveryResponse
        ⟨[(⟨ApiVersion.v3, "CLA"⟩, ⟨[⟨1, [], false⟩], [], [], ""⟩)], false⟩
        ⟨⟨ApiVersion.v3, "Cluster"⟩, [⟨"x", [], 0⟩], "0", "n0"⟩ =
      (⟨[(⟨ApiVersion.v3, "CLA"⟩, ⟨[⟨1, [], false⟩], [], [], ""⟩)], false⟩, []) ∧
    (⟨1, [], "7"⟩ : Delivery) ∈
      (NewGrpcMuxImpl.onDiscoveryResponse
        ⟨[(⟨ApiVersion.v3, "CLA"⟩, ⟨[⟨1, [], false⟩], [], [], ""⟩)], false⟩
        ⟨⟨ApiVersion.v3, "CLA"⟩, [], "7", "n"⟩).2 :=
  ⟨(mux_unknown_type_isolated
      ⟨[(⟨ApiVersion.v3, "CLA"⟩, ⟨[⟨1, [], false⟩], [], [], ""⟩)], false⟩
      ⟨⟨ApiVersion.v3, "Cluster"⟩, [⟨"x", [], 0⟩], "0", "n0"⟩ (by decide) (by decide)).1,
   (mux_unknown_type_isolated
      ⟨[(⟨ApiVersion.v3, "CLA"⟩, ⟨[⟨1, [], false⟩], [], [], ""⟩)], false⟩
      ⟨⟨ApiVersion.v3, "Cluster"⟩, [⟨"x", [], 0⟩], "0", "n0"⟩ (by decide) (by decide)).2
     ⟨ApiVersion.v3, "CLA"⟩ ⟨[⟨1, [], false⟩], [], [], ""⟩ ⟨1, [], false⟩ "7" "n"
     (by decide) (by decide) rfl⟩

/-- Claim C6: a watch registered under one version alias of a type receiving a
response under the sibling alias — with the compatibility flag enabled the
response's resources are dispatched to that alias's subscription (its watches),
with the flag disabled the response is dropped with zero callback invocations
and no state change. -/
theorem mux_version_alias_bridging (m : MuxState) (resp : DeltaResponse)
    (sub : Subscription)
    (hdirect : lookupSub m.subscriptions resp.typeUrl = none)
    (hsib : lookupSub m.subscriptions resp.typeUrl.sibling = some sub) :
    (m.typeUrlUpgradeDowngradeEnabled = true →
      (NewGrpcMuxImpl.onDiscoveryResponse m resp).2 =
        deliveriesFor sub resp.resources resp.systemVersion) ∧
    (m.typeUrlUpgradeDowngradeEnabled = false →
      NewGrpcMuxImpl.onDiscoveryResponse m resp = (m, [])) := by
  constructor
  · intro hflag
    unfold NewGrpcMuxImpl.onDiscoveryResponse
    rw [hdirect]
    dsimp only
    rw [hflag, if_pos rfl, hsib]
  · intro hflag
    unfold NewGrpcMuxImpl.onDiscoveryResponse
    rw [hdirect]
    dsimp only
    rw [hflag]
    simp

/-- Witness for `mux_version_alias_bridging`: the v2-watched subscription
receives the v3 response when the flag is on, and the same response is dropped
when the flag is off. -/
theorem mux_version_alias_bridging_witness :
    (NewGrpcMuxImpl.onDiscoveryResponse
        ⟨[(⟨ApiVersion.v2, "CLA"⟩, ⟨[⟨4, [], false⟩], [], [], ""⟩)], true⟩
        ⟨⟨ApiVersion.v3, "CLA"⟩, [⟨"x", [], 3⟩], "1", "n1"⟩).2 =
      deliveriesFor ⟨[⟨4, [], false⟩], [], [], ""⟩ [⟨"x", [], 3⟩] "1" ∧
    NewGrpcMuxImpl.onDiscoveryResponse
        ⟨[(⟨ApiVersion.v2, "CLA"⟩, ⟨[⟨4, [], false⟩], [], [], ""⟩)], false⟩
        ⟨⟨ApiVersion.v3, "CLA"⟩, [⟨"x", [], 3⟩], "1", "n1"⟩ =
      (⟨[(⟨ApiVersion.v2, "CLA"⟩, ⟨[⟨4, [], false⟩], [], [], ""⟩)], false⟩, []) :=
  ⟨(mux_version_alias_bridging
      ⟨[(⟨ApiVersion.v2, "CLA"⟩, ⟨[⟨4, [], false⟩], [], [], ""⟩)], true⟩
      ⟨⟨ApiVersion.v3, "CLA"⟩, [⟨"x", [], 3⟩], "1", "n1"⟩ ⟨[⟨4, [], false⟩], [], [], ""⟩
      (by decide) (by decide)).1 rfl,
   (mux_version_alias_bridging
      ⟨[(⟨ApiVersion.v2, "CLA"⟩, ⟨[⟨4, [], false⟩], [], [], ""⟩)], false⟩
      ⟨⟨ApiVersion.v3, "CLA"⟩, [⟨"x", [], 3⟩], "1", "n1"⟩ ⟨[⟨4, [], false⟩], [], [], ""⟩
      (by decide) (by decide)).2 rfl⟩

/-- Claim C7: a response resource carrying aliases, received by a
namespace-matching watch whose requested prefix covers the resource's name or
any one of its aliases, is delivered to that watch exactly once as a single
added resource, regardless of which alias matched. -/
theorem mux_alias_resolved_once (m : MuxState) (t : TypeUrl) (sub : Subscription)
    (w : Watch) (r : DecodedResource) (resources : List DecodedResource)
    (ver nonce : String)
    (hsub : lookupSub m.subscriptions t = some sub) (hw : w ∈ sub.watches)
    (hns : w.useNamespaceMatching = true)
    (hr : r ∈ resources) (hcount : resources.count r = 1)
    (hmatch : w.requestedNames.contains (namespaceOf r.name) = true ∨
      ∃ a ∈ r.aliases, w.requestedNames.contains (namespaceOf a) = true) :
    ∃ d ∈ (NewGrpcMuxImpl.onDiscoveryResponse m ⟨t, resources, ver, nonce⟩).2,
      d.watchId = w.id ∧ d.added.count r = 1 := by
  have hmatchb : watchMatchesResource w r = true := by
    unfold watchMatchesResource
    by_cases hemp : w.requestedNames.isEmpty = true
    · rw [if_pos hemp]
    · rw [if_neg hemp, hns, if_pos rfl]
      rcases hmatch with h | ⟨a, ha, hcont⟩
      · rw [h]
        simp
      · have hany : r.aliases.any (fun a => w.requestedNames.contains (namespaceOf a)) = true :=
          List.any_eq_true.mpr ⟨a, ha, hcont⟩
        rw [hany]
        simp
  have hradd : r ∈ resources.filter (watchMatchesResource w) :=
    List.mem_filter.mpr ⟨hr, hmatchb⟩
  have hne : (resources.filter (watchMatchesResource w)).isEmpty = false := by
    cases hf : resources.filter (watchMatchesResource w) with
    | nil => rw [hf] at hradd; cases hradd
    | cons x xs => rfl
  have hdel : watchDelivery w resources ver =
      some ⟨w.id, resources.filter (watchMatchesResource w), ver⟩ := by
    unfold watchDelivery
    rw [hne, if_pos rfl]
  refine ⟨⟨w.id, resources.filter (watchMatchesResource w), ver⟩, ?_, rfl, ?_⟩
  · rw [onDiscoveryResponse_known_snd m ⟨t, resources, ver, nonce⟩ sub hsub]
    exact List.mem_filterMap.mpr ⟨w, hw, hdel⟩
  · exact (List.count_filter hmatchb).trans hcount

/-- Witness for `mux_alias_resolved_once`, at the aliases scenario of the mux
tests: resource `prefix/vhost_1` with aliases `prefix/domain1.test` and
`prefix/domain2.test`, watch requesting namespace `prefix`. -/
theorem mux_alias_resolved_once_witness :
    ∃ d ∈ (NewGrpcMuxImpl.onDiscoveryResponse
        ⟨[(⟨ApiVersion.v3, "VirtualHost"⟩,
           ⟨[⟨5, ["prefix"], true⟩], ["prefix"], ["prefix"], ""⟩)], false⟩
        ⟨⟨ApiVersion.v3, "VirtualHost"⟩,
         [⟨"prefix/vhost_1", ["prefix/domain1.test", "prefix/domain2.test"], 11⟩],
         "1", "n1"⟩).2,
      d.watchId = (⟨5, ["prefix"], true⟩ : Watch).id ∧
        d.added.count
          ⟨"prefix/vhost_1", ["prefix/domain1.test", "prefix/domain2.test"], 11⟩ = 1 :=
  mux_alias_resolved_once
    ⟨[(⟨ApiVersion.v3, "VirtualHost"⟩,
       ⟨[⟨5, ["prefix"], true⟩], ["prefix"], ["prefix"], ""⟩)], false⟩
    ⟨ApiVersion.v3, "VirtualHost"⟩
    ⟨[⟨5, ["prefix"], true⟩], ["prefix"], ["prefix"], ""⟩
    ⟨5, ["prefix"], true⟩
    ⟨"prefix/vhost_1", ["prefix/domain1.test", "prefix/domain2.test"], 11⟩
    [⟨"prefix/vhost_1", ["prefix/domain1.test", "prefix/domain2.test"], 11⟩]
    "1" "n1" (by decide) (by decide) rfl (by decide) (by decide)
    (Or.inr ⟨"prefix/domain1.test", by decide, by decide⟩)

theorem filter_not_contains_self (l : List String) :
    l.filter (fun n => !(l.contains n)) = [] := by
  apply List.filter_eq_nil_iff.mpr
  intro a ha
  have h : l.contains a = true := List.elem_eq_true_of_mem ha
  simp [h]
  exact ha

/-- Claim C8: a context-parameter update naming key K makes every subscription
of type K resend a request with empty subscribe and unsubscribe lists (its
desired-name set being unchanged) and the node block re-attached; every
subscription of another type sends nothing (every emitted request is for K),
and an update whose key matches no subscription sends nothing at all. -/
theorem mux_context_update_targets_type (m : MuxState) (key : TypeUrl) :
    (∀ p ∈ m.subscriptions, p.1 = key → p.2.desiredNames = p.2.namesSubscribed →
      (⟨key, [], [], p.2.lastNonce, true⟩ : DeltaRequest) ∈
        NewGrpcMuxImpl.onDynamicContextUpdate m key) ∧
    (∀ req ∈ NewGrpcMuxImpl.onDynamicContextUpdate m key,
      req.typeUrl = key ∧ req.nodeAttached = true) ∧
    ((∀ p ∈ m.subscriptions, p.1 ≠ key) →
      NewGrpcMuxImpl.onDynamicContextUpdate m key = []) := by
  refine ⟨?_, ?_, ?_⟩
  · intro p hp hkey hd
    apply List.mem_filterMap.mpr
    refine ⟨p, hp, ?_⟩
    rw [if_pos hkey]
    unfold buildForcedRequest
    rw [hkey, hd, filter_not_contains_self]
  · intro req hreq
    obtain ⟨p, hp, hif⟩ := List.mem_filterMap.mp hreq
    by_cases hkey : p.1 = key
    · rw [if_pos hkey] at hif
      have hr := Option.some.inj hif
      subst hr
      exact ⟨hkey, rfl⟩
    · rw [if_neg hkey] at hif
      cases hif
  · intro hall
    apply List.filterMap_eq_nil_iff.mpr
    intro p hp
    rw [if_neg (hall p hp)]

/-- Witness for `mux_context_update_targets_type`, at the end-to-end scenario
of the spec: subscriptions for types foo (names x, y) and bar (wildcard); a
context update for key foo emits the forced foo request with empty deltas and
the node attached, and an update for the unknown key baz emits nothing. -/
theorem mux_context_update_targets_type_witness :
    (⟨⟨ApiVersion.v3, "foo"⟩, [], [], "nf", true⟩ : DeltaRequest) ∈
      NewGrpcMuxImpl.onDynamicContextUpdate
        ⟨[(⟨ApiVersion.v3, "foo"⟩, ⟨[⟨1, ["x", "y"], false⟩], ["x", "y"], ["x", "y"], "nf"⟩),
          (⟨ApiVersion.v3, "bar"⟩, ⟨[⟨2, [], false⟩], [], [], "nb"⟩)], false⟩
        ⟨ApiVersion.v3, "foo"⟩ ∧
    NewGrpcMuxImpl.onDynamicContextUpdate
        ⟨[(⟨ApiVersion.v3, "foo"⟩, ⟨[⟨1, ["x", "y"], false⟩], ["x", "y"], ["x", "y"], "nf"⟩),
          (⟨ApiVersion.v3, "bar"⟩, ⟨[⟨2, [], false⟩], [], [], "nb"⟩)], false⟩
        ⟨ApiVersion.v3, "baz"⟩ = [] :=
  ⟨(mux_context_update_targets_type
      ⟨[(⟨ApiVersion.v3, "foo"⟩, ⟨[⟨1, ["x", "y"], false⟩], ["x", "y"], ["x", "y"], "nf"⟩),
        (⟨ApiVersion.v3, "bar"⟩, ⟨[⟨2, [], false⟩], [], [], "nb"⟩)], false⟩
      ⟨ApiVersion.v3, "foo"⟩).1
     (⟨ApiVersion.v3, "foo"⟩, ⟨[⟨1, ["x", "y"], false⟩], ["x", "y"], ["x", "y"], "nf"⟩)
     (by decide) rfl rfl,
   (mux_context_update_targets_type
      ⟨[(⟨ApiVersion.v3, "foo"⟩, ⟨[⟨1, ["x", "y"], false⟩], ["x", "y"], ["x", "y"], "nf"⟩),
        (⟨ApiVersion.v3, "bar"⟩, ⟨[⟨2, [], false⟩], [], [], "nb"⟩)], false⟩
      ⟨ApiVersion.v3, "baz"⟩).2.2 (by decide)⟩

/-!
Part 5 models, from the spec, the handle-based callback registry
(`CallbackManager` of `common/common/callback_impl.h`, not among the sources —
only its unit test is): an explicit registry keyed by a generated identifier,
whose handles deregister their entry on cancellation.
-/

/-- Modelled from the spec: the callback registry — the registered callback
identifiers in registration order, and the next generated identifier. -/
structure CallbackManager where
  callbacks : List Nat
  nextHandleId : Nat
deriving DecidableEq, Repr

/-- Modelled from the spec: registration returns the new handle's identifier
and the extended registry. -/
def CallbackManager.add (m : CallbackManager) : Nat × CallbackManager :=
  (m.nextHandleId, ⟨m.callbacks ++ [m.nextHandleId], m.nextHandleId + 1⟩)

/-- Modelled from the spec: cancelling a handle removes its registry entry;
removing an absent entry leaves the registry untouched. -/
def CallbackManager.remove (m : CallbackManager) (h : Nat) : CallbackManager :=
  ⟨m.callbacks.filter (fun i => !(i == h)), m.nextHandleId⟩

/-- Modelled from the spec: running the callbacks invokes every registered
callback, in registration order; the result lists the invoked identifiers. -/
def CallbackManager.runCallbacks (m : CallbackManager) : List Nat := m.callbacks

/-- Claim C9: cancelling a watch handle twice leaves the registry in the same
state as cancelling it once (the second removal is a no-op, never an error),
and after removal the handle's callback is never invoked again. -/
theorem callback_cancel_idempotent (m : CallbackManager) (h : Nat) :
    (m.remove h).remove h = m.remove h ∧ h ∉ (m.remove h).runCallbacks := by
  constructor
  · unfold CallbackManager.remove
    rw [List.filter_filter]
    have : (fun i => !(i == h) && !(i == h)) = fun i => !(i == h) := by
      funext i
      rw [Bool.and_self]
    rw [this]
  · intro hmem
    unfold CallbackManager.runCallbacks CallbackManager.remove at hmem
    have := (List.mem_filter.mp hmem).2
    simp at this

/-- Witness for `callback_cancel_idempotent` at a concrete registry. -/
theorem callback_cancel_idempotent_witness :
    ((⟨[3, 8], 9⟩ : CallbackManager).remove 8).remove 8 =
        (⟨[3, 8], 9⟩ : CallbackManager).remove 8 ∧
      8 ∉ ((⟨[3, 8], 9⟩ : CallbackManager).remove 8).runCallbacks :=
  callback_cancel_idempotent ⟨[3, 8], 9⟩ 8
